import Mathlib

/-!
Verification of the TetherAI streaming stack: the SSE frame decoder
(`sseToIterable`), the OpenAI and Anthropic adapter stream loops and payload
construction, and the retry/fallback middleware from the shared package.
Text is modelled as `List Char` (the decoder's TextDecoder collaborator is
stateful across chunks, so byte fragmentation reduces to arbitrary splits of
the decoded character sequence).
-/

namespace TetherAI

/-- Whitespace recognized by JavaScript `trim`/`trimStart`
(ASCII whitespace and line terminators, NBSP, BOM, LS, PS). -/
def isJsWhitespace (c : Char) : Bool :=
  c = ' ' || c = '\t' || c = '\n' || c = '\r' ||
  c = '\x0b' || c = '\x0c' || c = ' ' || c = '﻿' ||
  c = ' ' || c = ' '

/-- JS `String.prototype.trimStart`. -/
def trimStart (s : List Char) : List Char := s.dropWhile isJsWhitespace

/-- JS `String.prototype.trimEnd`. -/
def trimEnd (s : List Char) : List Char :=
  (s.reverse.dropWhile isJsWhitespace).reverse

/-- JS `String.prototype.trim`. -/
def jsTrim (s : List Char) : List Char := trimEnd (trimStart s)

/-- The regex `\r?\n` matched at the head of the text: returns the remainder
after the newline when it matches. -/
def nlSplit : List Char → Option (List Char)
  | '\r' :: '\n' :: r => some r
  | '\n' :: r => some r
  | _ => none

/-- The event-delimiter regex `\r?\n\r?\n` of `sseToIterable` matched at the
head of the text (two consecutive `\r?\n` matches). -/
def delimSplit (u : List Char) : Option (List Char) :=
  (nlSplit u).bind nlSplit

/-- The split `buffer.split(/\r?\n\r?\n/)` from `sseToIterable`: scan left to right,
cutting the buffer at each occurrence of the event delimiter. -/
def splitEvents : List Char → List (List Char)
  | '\r' :: '\n' :: '\r' :: '\n' :: r => [] :: splitEvents r
  | '\r' :: '\n' :: '\n' :: r => [] :: splitEvents r
  | '\n' :: '\r' :: '\n' :: r => [] :: splitEvents r
  | '\n' :: '\n' :: r => [] :: splitEvents r
  | c :: cs =>
      match splitEvents cs with
      | [] => [[c]]
      | p :: ps => (c :: p) :: ps
  | [] => [[]]

/-- The split `chunk.split(/\r?\n/)` from `sseToIterable`: cut a complete event into
its lines. -/
def splitLines : List Char → List (List Char)
  | '\r' :: '\n' :: r => [] :: splitLines r
  | '\n' :: r => [] :: splitLines r
  | c :: cs =>
      match splitLines cs with
      | [] => [[c]]
      | p :: ps => (c :: p) :: ps
  | [] => [[]]

/-- Per-line step of `sseToIterable`: `const trimmed = line.trimStart();
if (trimmed.startsWith("data:")) yield trimmed.slice(5).trim();`. -/
def dataLinePayload (l : List Char) : Option (List Char) :=
  match trimStart l with
  | 'd' :: 'a' :: 't' :: 'a' :: ':' :: rest => some (jsTrim rest)
  | _ => none

/-- All payloads yielded while scanning the lines of one complete event. -/
def eventPayloads (ev : List Char) : List (List Char) :=
  (splitLines ev).filterMap dataLinePayload

/-- The end-of-source flush of `sseToIterable`: trim the leftover buffer and,
when non-empty, scan its lines like an event. -/
def flushPayloads (buf : List Char) : List (List Char) :=
  let trailing := jsTrim buf
  if trailing.isEmpty then [] else eventPayloads trailing

/-- The reading loop of `sseToIterable`: per received chunk, append to the
buffer, split into events, emit all complete events, and keep the last
(incomplete) part buffered.  Returns the emitted events and the final
buffer contents. -/
def runPieces (buf : List Char) : List (List Char) → List (List Char) × List Char
  | [] => ([], buf)
  | p :: ps =>
      let parts := splitEvents (buf ++ p)
      let rest := runPieces (parts.getLastD []) ps
      (parts.dropLast ++ rest.1, rest.2)

/-- The full decoder `sseToIterable`: the ordered payload sequence produced
from a sequence of (already text-decoded) input chunks. -/
def sseToIterable (pieces : List (List Char)) : List (List Char) :=
  let r := runPieces [] pieces
  (r.1.map eventPayloads).flatten ++ flushPayloads r.2

example : splitEvents "a\n\nb".toList = ["a".toList, "b".toList] := by decide
example : splitEvents "a\r\n\r\nb".toList = ["a".toList, "b".toList] := by decide
example : splitEvents "a\r\n\rx".toList = ["a\r\n\rx".toList] := by decide
example :
    sseToIterable ["data: hi\n\nda".toList, "ta: yo\n\ndata: z".toList] =
      ["hi".toList, "yo".toList, "z".toList] := by decide

/-- Whether `u` contains an occurrence of the event delimiter at some position. -/
def hasDelim : List Char → Bool
  | [] => false
  | c :: cs => (delimSplit (c :: cs)).isSome || hasDelim cs

theorem nlSplit_inv {u r : List Char} (h : nlSplit u = some r) :
    u = '\r' :: '\n' :: r ∨ u = '\n' :: r := by
  rw [nlSplit.eq_def] at h
  split at h
  · exact Or.inl (by injection h with h; rw [h])
  · exact Or.inr (by injection h with h; rw [h])
  · exact absurd h (by simp)

theorem nlSplit_append_some {u r : List Char} (v : List Char)
    (h : nlSplit u = some r) : nlSplit (u ++ v) = some (r ++ v) := by
  rcases nlSplit_inv h with h' | h' <;> subst h' <;> rfl

theorem nlSplit_none_append {u v w : List Char} (h : nlSplit u = none)
    (h2 : nlSplit (u ++ v) = some w) : u = [] ∨ u = ['\r'] := by
  rcases nlSplit_inv h2 with h' | h'
  · rcases u with _ | ⟨c1, u1⟩
    · exact Or.inl rfl
    · rcases u1 with _ | ⟨c2, u2⟩
      · injection h' with e1 _
        exact Or.inr (by rw [e1])
      · injection h' with e1 e2
        injection e2 with e2 _
        subst e1; subst e2
        exact absurd h (by simp [nlSplit])
  · rcases u with _ | ⟨c1, u1⟩
    · exact Or.inl rfl
    · injection h' with e1 _
      subst e1
      exact absurd h (by simp [nlSplit])

theorem delimSplit_inv {u r : List Char} (h : delimSplit u = some r) :
    u = '\r' :: '\n' :: '\r' :: '\n' :: r ∨ u = '\r' :: '\n' :: '\n' :: r ∨
      u = '\n' :: '\r' :: '\n' :: r ∨ u = '\n' :: '\n' :: r := by
  unfold delimSplit at h
  rcases hm : nlSplit u with _ | m
  · rw [hm] at h; exact absurd h (by simp)
  · rw [hm] at h
    replace h : nlSplit m = some r := h
    rcases nlSplit_inv hm with h1 | h1 <;> rcases nlSplit_inv h with h2 | h2 <;>
      subst h2 <;> subst h1 <;> simp

theorem delimSplit_append_some {u r : List Char} (v : List Char)
    (h : delimSplit u = some r) : delimSplit (u ++ v) = some (r ++ v) := by
  unfold delimSplit at h ⊢
  rcases hm : nlSplit u with _ | m
  · rw [hm] at h; exact absurd h (by simp)
  · rw [hm] at h
    replace h : nlSplit m = some r := h
    rw [nlSplit_append_some v hm]
    simpa using nlSplit_append_some v h

theorem delimSplit_none_append {u v w : List Char} (h : delimSplit u = none)
    (h2 : delimSplit (u ++ v) = some w) :
    u = [] ∨ u = ['\r'] ∨ u = ['\n'] ∨ u = ['\r', '\n'] ∨
      u = ['\n', '\r'] ∨ u = ['\r', '\n', '\r'] := by
  unfold delimSplit at h h2
  rcases hx : nlSplit (u ++ v) with _ | x
  · rw [hx] at h2; exact absurd h2 (by simp)
  · rw [hx] at h2
    replace h2 : nlSplit x = some w := h2
    rcases hm : nlSplit u with _ | m
    · rcases nlSplit_none_append hm hx with h' | h' <;> simp [h']
    · rw [hm] at h
      replace h : nlSplit m = none := h
      have hxmv : nlSplit (u ++ v) = some (m ++ v) := nlSplit_append_some v hm
      rw [hx] at hxmv
      injection hxmv with hxmv
      subst hxmv
      rcases nlSplit_none_append h h2 with h' | h' <;>
        rcases nlSplit_inv hm with h1 | h1 <;> subst h' <;> simp [h1]

theorem delimSplit_length {u r : List Char} (h : delimSplit u = some r) :
    r.length < u.length := by
  rcases delimSplit_inv h with h' | h' | h' | h' <;> subst h' <;> simp <;> omega

theorem splitEvents_nil : splitEvents [] = [[]] := rfl

theorem splitEvents_of_delim {u r : List Char} (h : delimSplit u = some r) :
    splitEvents u = [] :: splitEvents r := by
  rcases delimSplit_inv h with h' | h' | h' | h' <;> subst h' <;> rfl

theorem splitEvents_of_none {c : Char} {cs : List Char}
    (h : delimSplit (c :: cs) = none) :
    splitEvents (c :: cs) =
      match splitEvents cs with
      | [] => [[c]]
      | p :: ps => (c :: p) :: ps := by
  rw [splitEvents.eq_def]
  split
  · rename_i r heq
    exfalso; rw [heq] at h; simp [delimSplit, nlSplit] at h
  · rename_i r heq
    exfalso; rw [heq] at h; simp [delimSplit, nlSplit] at h
  · rename_i r heq
    exfalso; rw [heq] at h; simp [delimSplit, nlSplit] at h
  · rename_i r heq
    exfalso; rw [heq] at h; simp [delimSplit, nlSplit] at h
  · rename_i c' cs' h1 h2 h3 h4 heq
    injection heq with e1 e2
    subst e1; subst e2
    rfl
  · rename_i heq
    exact absurd heq (by simp)

theorem splitEvents_ne_nil (u : List Char) : splitEvents u ≠ [] := by
  rcases hd : delimSplit u with _ | r
  · rcases u with _ | ⟨c, cs⟩
    · simp [splitEvents_nil]
    · rw [splitEvents_of_none hd]
      split <;> simp
  · rw [splitEvents_of_delim hd]; simp

theorem splitEvents_singleton :
    ∀ (u p : List Char), splitEvents u = [p] → p = u := by
  intro u
  induction u with
  | nil =>
      intro p h
      rw [splitEvents_nil] at h
      injection h with h
      rw [h]
  | cons c cs ih =>
      intro p h
      rcases hd : delimSplit (c :: cs) with _ | r
      · rw [splitEvents_of_none hd] at h
        rcases hs : splitEvents cs with _ | ⟨q, qs⟩
        · exact absurd hs (splitEvents_ne_nil cs)
        · rw [hs] at h
          rcases qs with _ | ⟨q2, qs2⟩
          · simp only [List.cons.injEq] at h
            rw [← h.1, ih q hs]
          · simp at h
      · rw [splitEvents_of_delim hd] at h
        simp only [List.cons.injEq] at h
        exact absurd h.2 (splitEvents_ne_nil r)

/-- For a list holding the event delimiter nowhere, the split is trivial. -/
theorem splitEvents_of_noDelim :
    ∀ (u : List Char), hasDelim u = false → splitEvents u = [u] := by
  intro u
  induction u with
  | nil => exact fun _ => rfl
  | cons c cs ih =>
      intro h
      rcases hdd : delimSplit (c :: cs) with _ | r
      · rw [hasDelim, hdd] at h
        simp only [Option.isSome_none, Bool.false_or] at h
        rw [splitEvents_of_none hdd, ih h]
      · rw [hasDelim, hdd] at h
        simp at h

theorem getLastD_irrel {α : Type} (a b : α) (l : List α) (h : l ≠ []) :
    l.getLastD a = l.getLastD b := by
  rcases l with _ | ⟨c, cs⟩
  · exact absurd rfl h
  · rw [List.getLastD_cons, List.getLastD_cons]

theorem getLastD_cons₂ {α : Type} (a b d : α) (l : List α) :
    (a :: b :: l).getLastD d = (b :: l).getLastD d := by
  rw [List.getLastD_cons]
  exact getLastD_irrel a d (b :: l) (by simp)

/-- Core lemma behind fragmentation invariance: splitting `u ++ v` emits the
complete events of `u` and then continues on `u`'s (possibly incomplete)
last part prepended to `v`. -/
theorem splitEvents_append (u v : List Char) :
    splitEvents (u ++ v) =
      (splitEvents u).dropLast ++
        splitEvents ((splitEvents u).getLastD [] ++ v) := by
  rcases hd : delimSplit u with _ | r
  · rcases u with _ | ⟨c, cs⟩
    · simp [splitEvents_nil]
    · rcases hs : splitEvents cs with _ | ⟨q, qs⟩
      · exact absurd hs (splitEvents_ne_nil cs)
      · rcases qs with _ | ⟨q2, qs2⟩
        · -- `cs` splits trivially, so `c :: cs` is a single (unfinished) part.
          have hq : q = cs := splitEvents_singleton cs q hs
          subst hq
          rw [splitEvents_of_none hd, hs]
          simp
        · -- `cs` contains a delimiter, so `c :: cs ++ v` cannot start with one.
          have h2 : delimSplit (c :: (cs ++ v)) = none := by
            rcases h2' : delimSplit (c :: (cs ++ v)) with _ | w
            · rfl
            · exfalso
              have h2'' : delimSplit ((c :: cs) ++ v) = some w := by
                rw [List.cons_append]; exact h2'
              have hcs : splitEvents cs = [cs] := by
                rcases delimSplit_none_append hd h2'' with e | e | e | e | e | e <;>
                  (try exact List.noConfusion e) <;>
                  (injection e with e1 e2; rw [e2]; decide)
              rw [hcs] at hs
              simp at hs
          have IH := splitEvents_append cs v
          rw [hs] at IH
          rw [List.cons_append, splitEvents_of_none h2, splitEvents_of_none hd,
            hs, IH]
          simp only [List.dropLast_cons₂, List.cons_append, getLastD_cons₂]
  · have hdv : delimSplit (u ++ v) = some (r ++ v) := delimSplit_append_some v hd
    rw [splitEvents_of_delim hdv, splitEvents_of_delim hd]
    have IH := splitEvents_append r v
    rcases hS : splitEvents r with _ | ⟨s1, s2⟩
    · exact absurd hS (splitEvents_ne_nil r)
    · rw [hS] at IH
      rw [IH, List.dropLast_cons₂, getLastD_cons₂]
      simp
termination_by u.length
decreasing_by
  all_goals first
    | exact delimSplit_length hd
    | simp

/-- The part kept buffered after a split never contains a delimiter. -/
theorem hasDelim_lastPart (u : List Char) :
    hasDelim ((splitEvents u).getLastD []) = false := by
  rcases hd : delimSplit u with _ | r
  · rcases u with _ | ⟨c, cs⟩
    · rfl
    · rw [splitEvents_of_none hd]
      rcases hs : splitEvents cs with _ | ⟨q, qs⟩
      · exact absurd hs (splitEvents_ne_nil cs)
      · rcases qs with _ | ⟨q2, qs2⟩
        · have hq : q = cs := splitEvents_singleton cs q hs
          subst hq
          have IH := hasDelim_lastPart q
          rw [hs] at IH
          show hasDelim (((c :: q) :: []).getLastD []) = false
          rw [show ((c :: q) :: []).getLastD [] = c :: q from rfl, hasDelim, hd]
          simpa using IH
        · have IH := hasDelim_lastPart cs
          rw [hs] at IH
          rw [getLastD_cons₂] at IH
          simpa [getLastD_cons₂] using IH
  · rw [splitEvents_of_delim hd]
    have IH := hasDelim_lastPart r
    rcases hS : splitEvents r with _ | ⟨s1, s2⟩
    · exact absurd hS (splitEvents_ne_nil r)
    · rw [hS] at IH
      simpa [getLastD_cons₂] using IH
termination_by u.length
decreasing_by
  all_goals first
    | exact delimSplit_length hd
    | (rw [hq]; simp)
    | simp

theorem getLastD_append {α : Type} (A B : List α) (d : α) (h : B ≠ []) :
    (A ++ B).getLastD d = B.getLastD d := by
  induction A with
  | nil => rfl
  | cons a A ih =>
      rw [List.cons_append, List.getLastD_cons,
        getLastD_irrel a d _ (List.append_ne_nil_of_right_ne_nil A h), ih]

/-- Closed form for the decoder's reading loop: starting from a
delimiter-free buffer, processing any chunk sequence emits exactly the
complete events of the concatenation and buffers its last part. -/
theorem runPieces_eq (ps : List (List Char)) :
    ∀ (buf : List Char), hasDelim buf = false →
      runPieces buf ps =
        ((splitEvents (buf ++ ps.flatten)).dropLast,
          (splitEvents (buf ++ ps.flatten)).getLastD []) := by
  induction ps with
  | nil =>
      intro buf hb
      simp [runPieces, splitEvents_of_noDelim buf hb]
  | cons p ps ih =>
      intro buf hb
      have hlast := hasDelim_lastPart (buf ++ p)
      have key := splitEvents_append (buf ++ p) ps.flatten
      simp only [runPieces, ih _ hlast]
      rw [List.flatten_cons, ← List.append_assoc, key]
      refine Prod.ext ?_ ?_
      · simp [List.dropLast_append_of_ne_nil _ (splitEvents_ne_nil _)]
      · exact (getLastD_append _ _ _ (splitEvents_ne_nil _)).symm

/-- C2 (fragmentation invariance), expressed at the level of decoded text
chunks: decoding any list of chunk fragments yields the same payload
sequence as decoding their concatenation in one piece. -/
theorem sseToIterable_fragmentation (pieces : List (List Char)) :
    sseToIterable pieces = sseToIterable [pieces.flatten] := by
  unfold sseToIterable
  rw [runPieces_eq pieces [] rfl, runPieces_eq [pieces.flatten] [] rfl]
  simp

/-- The decoder's per-line step in closed form: a payload is produced exactly
when the line, after `trimStart`, begins with the 5 characters `data:`, and
the payload is the trimmed remainder. -/
theorem dataLinePayload_eq (l : List Char) :
    dataLinePayload l =
      if "data:".toList.isPrefixOf (trimStart l) then
        some (jsTrim ((trimStart l).drop 5))
      else none := by
  rw [dataLinePayload.eq_def]
  split
  · rename_i rest heq
    rw [heq]
    simp [List.isPrefixOf]
  · rename_i hne
    cases hp : "data:".toList.isPrefixOf (trimStart l)
    · simp
    · exfalso
      obtain ⟨t, ht⟩ := List.isPrefixOf_iff_prefix.mp hp
      exact hne t ht.symm

/-- Per-event form of the (amended) C8 property: the payloads of one event
are exactly the trimmed remainders of those lines whose whitespace-stripped
form begins with `data:`. -/
theorem eventPayloads_eq_filter (ev : List Char) :
    eventPayloads ev =
      ((splitLines ev).filter
          (fun l => "data:".toList.isPrefixOf (trimStart l))).map
        (fun l => jsTrim ((trimStart l).drop 5)) := by
  unfold eventPayloads
  induction splitLines ev with
  | nil => rfl
  | cons l ls ih =>
      rw [List.filterMap_cons, List.filter_cons, dataLinePayload_eq]
      cases hp : "data:".toList.isPrefixOf (trimStart l) <;> simp [hp, ih]

/-- JSON values, as produced by `JSON.parse` on a payload string. -/
inductive Json where
  | null
  | bool (b : Bool)
  | num (n : Int)
  | str (s : String)
  | arr (elems : List Json)
  | obj (fields : List (String × Json))

/-- JS property access `x.k` (guarded by `?.` / truthiness in the sources):
a field of an object, `undefined` (here `none`) otherwise. -/
def jGet (x : Json) (k : String) : Option Json :=
  match x with
  | .obj fs => (fs.find? (fun p => p.1 == k)).map Prod.snd
  | _ => none

/-- The field `x.k` when it is a string (`typeof v === "string"`). -/
def jStrField (x : Json) (k : String) : Option String :=
  match jGet x k with
  | some (.str s) => some s
  | _ => none

/-- The function `getDeltaContent` from openai.ts: `choices?.[0]?.delta?.content` when
`x` is an object whose `choices` field is an array and the content is a
string, and `""` otherwise. -/
def getDeltaContent (x : Json) : String :=
  match jGet x "choices" with
  | some (.arr cs) =>
      match cs.head? with
      | some c =>
          match (jGet c "delta").bind (fun d => jGet d "content") with
          | some (.str s) => s
          | _ => ""
      | none => ""
  | _ => ""

/-- The predicate `isTextDeltaEvent` from the Anthropic adapter: the event is an object of
`type` `content_block_delta` whose `delta` has `type` `text_delta` and a
string `text`. -/
def isTextDeltaEvent (x : Json) : Bool :=
  (jStrField x "type" == some "content_block_delta") &&
    (match jGet x "delta" with
     | some d =>
         (jStrField d "type" == some "text_delta") &&
           (jStrField d "text").isSome
     | none => false)

/-- The extraction `(ev as { delta: { text: string } }).delta.text`. -/
def textDeltaOf (x : Json) : String :=
  ((jGet x "delta").bind (fun d => jStrField d "text")).getD ""

/-- One payload handed to an adapter's stream loop by `sseToIterable`:
the literal `[DONE]` sentinel string, a string that `JSON.parse` accepts
(carrying its parse), or one it rejects. -/
inductive SsePayload where
  | done
  | json (j : Json)
  | malformed

/-- A normalized streaming chunk `{delta, done?}`; an absent `done` is
falsy in every consumer, hence modelled as `false`. -/
structure ChatStreamChunk where
  delta : String
  done : Bool := false
deriving DecidableEq

/-- The OpenAI `streamChat` payload loop (openai.ts lines 229-243) run over
the whole decoder output: `ps` are the payloads the decoder delivers before
it ends, and `err` is the error the underlying stream raises at its end
(`none` if it ends normally).  Returns the chunks yielded to the caller and
the error propagated, if any. -/
def openAIStreamRun {ε : Type} :
    List SsePayload → Option ε → List ChatStreamChunk × Option ε
  | [], err => ([], err)
  | .done :: _, _ => ([{ delta := "", done := true }], none)
  | .json j :: rest, err =>
      let tail := openAIStreamRun rest err
      ((if (getDeltaContent j).isEmpty then []
        else [{ delta := getDeltaContent j }]) ++ tail.1, tail.2)
  | .malformed :: rest, err => openAIStreamRun rest err

/-- The Anthropic `streamChat` payload loop (part of the standalone
Anthropic provider, lines 147-159): text-delta events yield their text, all
other payloads are skipped; after a normal end of the loop one terminal
`{delta:"", done:true}` chunk is yielded, while a source error propagates
(wrapped into an `AnthropicError`, which we keep abstract). -/
def anthropicStreamRun {ε : Type} :
    List SsePayload → Option ε → List ChatStreamChunk × Option ε
  | [], none => ([{ delta := "", done := true }], none)
  | [], some e => ([], some e)
  | p :: rest, err =>
      let tail := anthropicStreamRun rest err
      ((match p with
        | .json j => if isTextDeltaEvent j then [{ delta := textDeltaOf j }] else []
        | _ => []) ++ tail.1, tail.2)

/-- The §3 streaming invariant: the chunk sequence either ends normally with
exactly one `done=true` chunk, in last position, or ends in an error with no
`done=true` chunk delivered — never both, never neither. -/
def streamInvariant {ε : Type} (out : List ChatStreamChunk × Option ε) : Prop :=
  match out.2 with
  | none =>
      (out.1.filter (fun c => c.done)).length = 1 ∧
        (out.1.getLast?.map (fun c => c.done)) = some true
  | some _ => (out.1.filter (fun c => c.done)).length = 0

theorem streamInvariant_prepend {ε : Type} (pre : List ChatStreamChunk)
    (hpre : ∀ c ∈ pre, c.done = false) (out : List ChatStreamChunk × Option ε)
    (h : streamInvariant out) :
    streamInvariant (pre ++ out.1, out.2) := by
  have hfil : pre.filter (fun c => c.done) = [] :=
    List.filter_eq_nil_iff.mpr (by simpa using hpre)
  unfold streamInvariant at h ⊢
  cases hout : out.2 with
  | none =>
      rw [hout] at h
      refine ⟨?_, ?_⟩
      · simp only [List.filter_append, hfil, List.nil_append]
        exact h.1
      · rcases hlast : out.1.getLast? with _ | c
        · rw [hlast] at h; simp at h
        · rw [List.getLast?_append, hlast]
          rw [hlast] at h
          exact h.2
  | some e =>
      rw [hout] at h
      simp only [List.filter_append, hfil, List.nil_append]
      exact h

theorem anthropicStreamRun_invariant {ε : Type} (ps : List SsePayload)
    (err : Option ε) : streamInvariant (anthropicStreamRun ps err) := by
  induction ps with
  | nil => cases err <;> simp [anthropicStreamRun, streamInvariant]
  | cons p rest ih =>
      have hstep : anthropicStreamRun (p :: rest) err =
          ((match p with
            | .json j =>
                if isTextDeltaEvent j then [{ delta := textDeltaOf j }] else []
            | _ => []) ++ (anthropicStreamRun rest err).1,
            (anthropicStreamRun rest err).2) := rfl
      rw [hstep]
      refine streamInvariant_prepend _ ?_ _ ih
      intro c hc
      rcases p with _ | j | _
      · simp at hc
      · by_cases hj : isTextDeltaEvent j
        · simp only [hj, if_true, List.mem_singleton] at hc
          rw [hc]
        · simp [hj] at hc
      · simp at hc

theorem openAIStreamRun_invariant_of {ε : Type} :
    ∀ (ps : List SsePayload) (err : Option ε),
      SsePayload.done ∈ ps ∨ err ≠ none →
        streamInvariant (openAIStreamRun ps err) := by
  intro ps
  induction ps with
  | nil =>
      intro err h
      rcases h with h | h
      · simp at h
      · rcases err with _ | e
        · exact absurd rfl h
        · simp [openAIStreamRun, streamInvariant]
  | cons p rest ih =>
      intro err h
      rcases p with _ | j | _
      · simp [openAIStreamRun, streamInvariant]
      · have h' : SsePayload.done ∈ rest ∨ err ≠ none := by
          rcases h with h | h
          · simp at h; exact Or.inl h
          · exact Or.inr h
        have hstep : openAIStreamRun (SsePayload.json j :: rest) err =
            ((if (getDeltaContent j).isEmpty then []
              else [{ delta := getDeltaContent j }]) ++
                (openAIStreamRun rest err).1,
              (openAIStreamRun rest err).2) := rfl
        rw [hstep]
        refine streamInvariant_prepend _ ?_ _ (ih err h')
        intro c hc
        by_cases hj : (getDeltaContent j).isEmpty
        · simp [hj] at hc
        · simp [hj] at hc
          rw [hc]
      · have h' : SsePayload.done ∈ rest ∨ err ≠ none := by
          rcases h with h | h
          · simp at h; exact Or.inl h
          · exact Or.inr h
        exact ih err h'

theorem openAIStreamRun_no_sentinel {ε : Type} :
    ∀ (ps : List SsePayload), SsePayload.done ∉ ps →
      ((openAIStreamRun ps (none : Option ε)).1.filter
          (fun c => c.done)).length = 0 ∧
        (openAIStreamRun ps (none : Option ε)).2 = none := by
  intro ps
  induction ps with
  | nil => intro _; exact ⟨rfl, rfl⟩
  | cons p rest ih =>
      intro h
      have hp : p ≠ SsePayload.done := fun e => h (e ▸ List.mem_cons_self p rest)
      have h' : SsePayload.done ∉ rest := fun e => h (List.mem_cons_of_mem p e)
      rcases p with _ | j | _
      · exact absurd rfl hp
      · have hstep : openAIStreamRun (SsePayload.json j :: rest)
            (none : Option ε) =
            ((if (getDeltaContent j).isEmpty then []
              else [{ delta := getDeltaContent j }]) ++
                (openAIStreamRun rest (none : Option ε)).1,
              (openAIStreamRun rest (none : Option ε)).2) := rfl
        rw [hstep]
        obtain ⟨ih1, ih2⟩ := ih h'
        refine ⟨?_, ih2⟩
        simp only [List.filter_append, List.length_append, ih1, Nat.add_zero]
        by_cases hj : (getDeltaContent j).isEmpty <;> simp [hj]
      · exact ih h'

/-- A JS error value as probed by `isTransientError` / `parseStatus`: its
numeric `status` / `statusCode` / `code` properties (a property that is
absent or not a number is `none`). -/
structure JsError where
  status : Option Int := none
  statusCode : Option Int := none
  code : Option Int := none
deriving DecidableEq

/-- One step of the `(cond && e.f) || …` chain in `isTransientError`: a
numeric field survives only when truthy (non-zero). -/
def truthyNum (x : Option Int) : Option Int :=
  match x with
  | some s => if s = 0 then none else some s
  | none => none

/-- The status extracted by `isTransientError` (shared/middleware.ts lines
86-103): the first of `status`, `statusCode`, `code` that is a number and
truthy, else `null`. -/
def extractStatus (e : JsError) : Option Int :=
  match truthyNum e.status with
  | some s => some s
  | none =>
      match truthyNum e.statusCode with
      | some s => some s
      | none => truthyNum e.code

/-- The classifier `isTransientError`: with a numeric status, transient means 429 or ≥ 500;
without one, transient by default. -/
def isTransientError (e : JsError) : Bool :=
  match extractStatus e with
  | some status => status == 429 || status ≥ 500
  | none => true

/-- The behavior of one invocation of a wrapped provider's `streamChat`:
it either completes after yielding `chunks`, or yields `chunks` and then
raises `e`. -/
inductive Attempt where
  | ok (chunks : List ChatStreamChunk)
  | fail (chunks : List ChatStreamChunk) (e : JsError)

/-- The `withRetry(provider, opts).streamChat` loop, run against a provider
whose k-th invocation (0-based) behaves as `beh k`; `budget` is the number
of retries still allowed (`retries` initially, so that after the k-th
failure the loop rethrows exactly when `attempt = k+1 > retries`, i.e.
`budget = 0`), and `aborted` is `signal?.aborted` at failure time.  The
backoff delay (`baseMs * factor^(attempt-1)`, jittered) only spends time, so
it is not part of the outcome.  Returns (number of provider invocations,
chunks yielded to the caller, propagated error if any). -/
def retryRun (beh : Nat → Attempt) (aborted : Bool) (k budget : Nat) :
    Nat × List ChatStreamChunk × Option JsError :=
  match beh k, budget with
  | .ok cs, _ => (1, cs, none)
  | .fail cs e, 0 => (1, cs, some e)
  | .fail cs e, b + 1 =>
      if isTransientError e && !aborted then
        let rest := retryRun beh aborted (k + 1) b
        (rest.1 + 1, cs ++ rest.2.1, rest.2.2)
      else (1, cs, some e)

/-- The call `withRetry(provider, {retries}).streamChat` from the start: first
invocation is number 0 with the full retry budget (`retries` defaults to 2
in the source). -/
def withRetry (retries : Nat) (beh : Nat → Attempt) (aborted : Bool) :
    Nat × List ChatStreamChunk × Option JsError :=
  retryRun beh aborted 0 retries

/-- The observable outcome of one `withFallback(providers).streamChat`
call. -/
structure FallbackOutcome where
  chunks : List ChatStreamChunk
  fallbackCalls : List (JsError × Nat)
  failure : Option JsError
  invoked : Nat

/-- The provider loop of `withFallback` (shared/middleware.ts lines
168-187): providers are consumed in order starting at index `i` with
`lastError = last`; a success returns its chunks, a failure records the
error, reports `(error, index)` to `onFallback` and moves on; when the list
is exhausted the recorded `lastError` is thrown. -/
def withFallbackGo (i : Nat) (last : Option JsError) :
    List Attempt → FallbackOutcome
  | [] => ⟨[], [], last, 0⟩
  | .ok cs :: _ => ⟨cs, [], none, 1⟩
  | .fail cs e :: rest =>
      let r := withFallbackGo (i + 1) (some e) rest
      ⟨cs ++ r.chunks, (e, i) :: r.fallbackCalls, r.failure, r.invoked + 1⟩

/-- The call `withFallback(providers).streamChat` (the wrap itself raises
synchronously on an empty provider list, so the loop starts at index 0 with
no recorded error). -/
def withFallback (provs : List Attempt) : FallbackOutcome :=
  withFallbackGo 0 none provs

/-- The default `opts.timeout ?? 30000` in both adapters. -/
def adapterTimeout (optTimeout : Option Nat) : Nat := optTimeout.getD 30000

/-- The abort-signal wiring of both adapters' `streamChat`/`chat`
(`signal: signal || controller.signal`): the externally supplied signal when
present — an `AbortSignal` object is always truthy — otherwise the internal
timeout controller's signal. -/
def effectiveSignal {σ : Type} (external : Option σ) (internal : σ) : σ :=
  external.getD internal

/-- Modelled from the spec (§6 collaborator contract: the HTTP transport
honors the abort signal attached to the request): whether the in-flight
call is aborted, as a function of whether an external signal is supplied,
whether it fires during the call, and whether the internal timeout fires
during the call.  A signal is represented by whether it fires. -/
def callAborted (externalSupplied externalFires timeoutFires : Bool) : Bool :=
  effectiveSignal (if externalSupplied then some externalFires else none)
    timeoutFires

/-- The message roles of the shared `ChatMessage` type. -/
inductive Role where
  | user
  | assistant
  | system
  | tool
deriving DecidableEq

structure ChatMessage where
  role : Role
  content : String
deriving DecidableEq

/-- The parts of a `ChatRequest` that the payload-construction claims are
about (the remaining optional sampling fields are copied into vendor
payloads independently of these). -/
structure ChatRequest where
  model : String
  messages : List ChatMessage
  systemPrompt : Option String := none
deriving DecidableEq

/-- JS truthiness of `req.systemPrompt` (absent or empty string is falsy). -/
def jsTruthy (s : Option String) : Bool :=
  match s with
  | some t => !t.isEmpty
  | none => false

/-- The message-list construction of the OpenAI adapter (openai.ts lines
186-195): prepend a system message built from `systemPrompt` only when it
is truthy and no system-role message is present. -/
def openAIMessages (req : ChatRequest) : List ChatMessage :=
  if jsTruthy req.systemPrompt &&
      !(req.messages.any fun m => m.role = Role.system) then
    { role := Role.system, content := req.systemPrompt.getD "" } :: req.messages
  else
    req.messages

/-- An entry of the Anthropic `messages` payload array
(`{role, content:[{type:"text", text}]}`). -/
structure AnthMessage where
  role : Role
  text : String
deriving DecidableEq

/-- The system/messages/model/stream part of the Anthropic vendor payload. -/
structure AnthropicPayload where
  system : Option String
  messages : List AnthMessage
  model : String
  stream : Bool
deriving DecidableEq

/-- The function `toAnthropicPayload` (the standalone Anthropic provider, lines 26-53):
`systemPrompt` (when truthy) is pushed first onto the `system` list, each
system-role message's content is appended to it, user/assistant messages
are mapped into the `messages` array, and everything else (i.e. tool
messages) is dropped; `system` is joined with newlines, or absent when the
list is empty.  The optional sampling fields copied in lines 56-73 are
independent of this and are not modelled. -/
def anthFoldStep (acc : List String × List AnthMessage) (m : ChatMessage) :
    List String × List AnthMessage :=
  (if m.role = Role.system then acc.1 ++ [m.content] else acc.1,
   if m.role = Role.user ∨ m.role = Role.assistant then
     acc.2 ++ [{ role := m.role, text := m.content }]
   else acc.2)

def toAnthropicPayload (req : ChatRequest) : AnthropicPayload :=
  let sys0 : List String :=
    match req.systemPrompt with
    | some s => if s.isEmpty then [] else [s]
    | none => []
  let step := req.messages.foldl anthFoldStep (sys0, [])
  { system :=
      if step.1.isEmpty then none else some (String.intercalate "\n" step.1),
    messages := step.2,
    model := req.model,
    stream := true }

theorem withFallbackGo_all_fail (fs : List (List ChatStreamChunk × JsError)) :
    ∀ (i : Nat) (last : Option JsError),
      withFallbackGo i last (fs.map (fun pe => Attempt.fail pe.1 pe.2)) =
        ⟨(fs.map Prod.fst).flatten,
          (List.enumFrom i fs).map (fun x => (x.2.2, x.1)),
          fs.foldl (fun _ pe => some pe.2) last,
          fs.length⟩ := by
  induction fs with
  | nil => intro i last; rfl
  | cons pe fs ih =>
      intro i last
      simp only [List.map_cons, withFallbackGo, ih (i + 1) (some pe.2)]
      simp [List.enumFrom]

theorem withFallbackGo_cons_fail (i : Nat) (last : Option JsError)
    (p : List ChatStreamChunk) (e : JsError) (l : List Attempt) :
    withFallbackGo i last (Attempt.fail p e :: l) =
      ⟨p ++ (withFallbackGo (i + 1) (some e) l).chunks,
        (e, i) :: (withFallbackGo (i + 1) (some e) l).fallbackCalls,
        (withFallbackGo (i + 1) (some e) l).failure,
        (withFallbackGo (i + 1) (some e) l).invoked + 1⟩ := rfl

theorem withFallbackGo_skip_fails (fs : List (List ChatStreamChunk × JsError)) :
    ∀ (i : Nat) (last : Option JsError) (cs : List ChatStreamChunk)
      (rest : List Attempt),
      withFallbackGo i last
          (fs.map (fun pe => Attempt.fail pe.1 pe.2) ++ (Attempt.ok cs :: rest)) =
        ⟨(fs.map Prod.fst).flatten ++ cs,
          (List.enumFrom i fs).map (fun x => (x.2.2, x.1)),
          none, fs.length + 1⟩ := by
  induction fs with
  | nil => intro i last cs rest; rfl
  | cons pe fs ih =>
      intro i last cs rest
      rw [List.map_cons, List.cons_append, withFallbackGo_cons_fail,
        ih (i + 1) (some pe.2) cs rest]
      simp [List.enumFrom]

theorem retryRun_ok {beh : Nat → Attempt} {k : Nat}
    {cs : List ChatStreamChunk} (a : Bool) (budget : Nat)
    (hb : beh k = Attempt.ok cs) : retryRun beh a k budget = (1, cs, none) := by
  rw [retryRun.eq_def, hb]

theorem retryRun_fail_zero {beh : Nat → Attempt} {k : Nat}
    {cs : List ChatStreamChunk} {e : JsError} (a : Bool)
    (hb : beh k = Attempt.fail cs e) :
    retryRun beh a k 0 = (1, cs, some e) := by
  rw [retryRun.eq_def, hb]

theorem retryRun_fail_succ {beh : Nat → Attempt} {k : Nat}
    {cs : List ChatStreamChunk} {e : JsError} (a : Bool) (b : Nat)
    (hb : beh k = Attempt.fail cs e) :
    retryRun beh a k (b + 1) =
      if isTransientError e && !a then
        ((retryRun beh a (k + 1) b).1 + 1,
          cs ++ (retryRun beh a (k + 1) b).2.1,
          (retryRun beh a (k + 1) b).2.2)
      else (1, cs, some e) := by
  rw [retryRun.eq_def, hb]

theorem retryRun_pos (beh : Nat → Attempt) (a : Bool) (k budget : Nat) :
    1 ≤ (retryRun beh a k budget).1 := by
  rw [retryRun.eq_def]
  split
  · simp
  · simp
  · split <;> simp

/-- Closed form of the `toAnthropicPayload` message loop. -/
theorem anthFold_spec (msgs : List ChatMessage) :
    ∀ (a : List String) (b : List AnthMessage),
      msgs.foldl anthFoldStep (a, b) =
        (a ++ (msgs.filter (fun m => m.role = Role.system)).map
            (fun m => m.content),
          b ++ msgs.filterMap (fun m =>
            if m.role = Role.user ∨ m.role = Role.assistant then
              some { role := m.role, text := m.content } else none)) := by
  induction msgs with
  | nil => intro a b; simp
  | cons m msgs ih =>
      intro a b
      rw [List.foldl_cons, List.filter_cons, List.filterMap_cons]
      rcases hm : m.role <;>
        simp [anthFoldStep, hm, ih, List.append_assoc]

theorem openAIStreamRun_nonterminal_delta {ε : Type} :
    ∀ (ps : List SsePayload) (err : Option ε) (c : ChatStreamChunk),
      c ∈ (openAIStreamRun ps err).1 → c.done = false → c.delta ≠ "" := by
  intro ps
  induction ps with
  | nil => intro err c hc _; simp [openAIStreamRun] at hc
  | cons p rest ih =>
      intro err c hc hdone
      rcases p with _ | j | _
      · simp only [openAIStreamRun, List.mem_singleton] at hc
        rw [hc] at hdone
        simp at hdone
      · have hstep : (openAIStreamRun (SsePayload.json j :: rest) err).1 =
            (if (getDeltaContent j).isEmpty then []
              else [{ delta := getDeltaContent j }]) ++
              (openAIStreamRun rest err).1 := rfl
        rw [hstep] at hc
        rcases List.mem_append.mp hc with hc' | hc'
        · by_cases hj : (getDeltaContent j).isEmpty
          · simp [hj] at hc'
          · simp [hj] at hc'
            rw [hc']
            intro he
            have he' : getDeltaContent j = "" := he
            exact hj (by rw [he']; rfl)
        · exact ih err c hc' hdone
      · exact ih err c hc hdone

theorem openAIStreamRun_empty_delta_skip {ε : Type} (j : Json)
    (ps : List SsePayload) (err : Option ε) (h : getDeltaContent j = "") :
    openAIStreamRun (SsePayload.json j :: ps) err = openAIStreamRun ps err := by
  have he : (getDeltaContent j).isEmpty = true := by rw [h]; rfl
  have hstep : openAIStreamRun (SsePayload.json j :: ps) err =
      ((if (getDeltaContent j).isEmpty then []
        else [{ delta := getDeltaContent j }]) ++
          (openAIStreamRun ps err).1,
        (openAIStreamRun ps err).2) := rfl
  rw [hstep, he]
  simp

/-- C1: as stated, the claim is false on the OpenAI adapter: its
`streamChat` emits the terminal chunk only on a `[DONE]` sentinel, so a
payload sequence that ends normally without `[DONE]` (here: the empty
sequence) yields neither a `done=true` chunk nor an error. -/
theorem claim1_counterexample :
    ¬ streamInvariant
        (openAIStreamRun ([] : List SsePayload) (none : Option Unit)) := by
  simp [streamInvariant, openAIStreamRun]

/-- C1 (amended): the Anthropic `streamChat` loop satisfies the invariant
for every payload sequence and source outcome; the OpenAI loop satisfies it
whenever the payload sequence contains the `[DONE]` sentinel or the source
ends in an error, and on a sentinel-free, error-free sequence it ends with
no `done=true` chunk and no error. -/
theorem claim1_stream_termination :
    (∀ (ε : Type) (ps : List SsePayload) (err : Option ε),
        streamInvariant (anthropicStreamRun ps err)) ∧
    (∀ (ε : Type) (ps : List SsePayload) (err : Option ε),
        SsePayload.done ∈ ps ∨ err ≠ none →
          streamInvariant (openAIStreamRun ps err)) ∧
    (∀ (ε : Type) (ps : List SsePayload), SsePayload.done ∉ ps →
        ((openAIStreamRun ps (none : Option ε)).1.filter
            (fun c => c.done)).length = 0 ∧
          (openAIStreamRun ps (none : Option ε)).2 = none) :=
  ⟨fun _ ps err => anthropicStreamRun_invariant ps err,
    fun _ ps err h => openAIStreamRun_invariant_of ps err h,
    fun _ ps h => openAIStreamRun_no_sentinel ps h⟩

/-- C1 (witness): the amended theorem applied at concrete inputs. -/
theorem claim1_witness :
    streamInvariant
        (anthropicStreamRun ([] : List SsePayload) (none : Option Unit)) ∧
    streamInvariant (openAIStreamRun [SsePayload.done] (none : Option Unit)) ∧
    (((openAIStreamRun [SsePayload.malformed] (none : Option Unit)).1.filter
          (fun c => c.done)).length = 0 ∧
      (openAIStreamRun [SsePayload.malformed] (none : Option Unit)).2 = none) :=
  ⟨claim1_stream_termination.1 Unit [] none,
    claim1_stream_termination.2.1 Unit [SsePayload.done] none
      (Or.inl (by simp)),
    claim1_stream_termination.2.2 Unit [SsePayload.malformed] (by simp)⟩

/-- C2: fragmentation invariance of the stream frame decoder: decoding any
splitting of a character sequence into contiguous pieces yields exactly the
payload sequence of decoding it as one buffer.  (Byte-level splits reduce
to character-level splits because the decoder's `TextDecoder` is stateful
across chunks.) -/
theorem claim2_fragmentation_invariance (pieces : List (List Char)) :
    sseToIterable pieces = sseToIterable [pieces.flatten] :=
  sseToIterable_fragmentation pieces

/-- C3: `withFallback` tries providers strictly in list order: a succeeding
head is consumed alone (no later provider is invoked, no observer call);
after `j` failing providers, a succeeding one stops the scan with exactly
`j+1` providers invoked, the observer called with `(error, index)` for each
failure in order, and the failures' chunks followed by the success chunks;
when every provider fails, all are invoked and the last error is the
propagated failure. -/
theorem claim3_fallback_order :
    (∀ (cs : List ChatStreamChunk) (rest : List Attempt),
        withFallback (Attempt.ok cs :: rest) = ⟨cs, [], none, 1⟩) ∧
    (∀ (fs : List (List ChatStreamChunk × JsError))
        (cs : List ChatStreamChunk) (rest : List Attempt),
        withFallback (fs.map (fun pe => Attempt.fail pe.1 pe.2) ++
            (Attempt.ok cs :: rest)) =
          ⟨(fs.map Prod.fst).flatten ++ cs,
            fs.enum.map (fun x => (x.2.2, x.1)), none, fs.length + 1⟩) ∧
    (∀ (fs : List (List ChatStreamChunk × JsError))
        (p : List ChatStreamChunk) (e : JsError),
        withFallback
            ((fs ++ [(p, e)]).map (fun pe => Attempt.fail pe.1 pe.2)) =
          ⟨((fs ++ [(p, e)]).map Prod.fst).flatten,
            ((fs ++ [(p, e)]).enum).map (fun x => (x.2.2, x.1)),
            some e, fs.length + 1⟩) := by
  refine ⟨fun cs rest => rfl, ?_, ?_⟩
  · intro fs cs rest
    unfold withFallback
    rw [withFallbackGo_skip_fails fs 0 none cs rest]
    rfl
  · intro fs p e
    unfold withFallback
    rw [withFallbackGo_all_fail (fs ++ [(p, e)]) 0 none]
    simp [List.foldl_append, List.enum]

/-- C4: with `retries: 2`, a provider failing twice with status 500 and then
succeeding is invoked exactly 3 times, and the caller receives the third
(successful) stream's chunks after whatever partial chunks the failures
yielded. -/
theorem claim4_retry_500_twice (p1 p2 cs : List ChatStreamChunk)
    (e1 e2 : JsError) (h1 : e1.status = some 500) (h2 : e2.status = some 500) :
    withRetry 2
      (fun k => [Attempt.fail p1 e1, Attempt.fail p2 e2,
        Attempt.ok cs].getD k (Attempt.ok [])) false =
      (3, p1 ++ (p2 ++ cs), none) := by
  have t1 : isTransientError e1 = true := by
    unfold isTransientError extractStatus truthyNum
    rw [h1]
    simp
  have t2 : isTransientError e2 = true := by
    unfold isTransientError extractStatus truthyNum
    rw [h2]
    simp
  unfold withRetry
  have e2' : (2 : Nat) = 1 + 1 := rfl
  rw [e2', retryRun_fail_succ false 1 rfl, t1,
    retryRun_fail_succ false 0 rfl, t2, retryRun_ok false 0 rfl]
  simp

/-- C4 (witness): the theorem applied at a concrete scenario. -/
theorem claim4_witness :
    withRetry 2
      (fun k => [Attempt.fail [] { status := some 500 },
        Attempt.fail [] { status := some 500 },
        Attempt.ok [{ delta := "ok" }]].getD k (Attempt.ok [])) false =
      (3, [] ++ ([] ++ [{ delta := "ok" }]), none) :=
  claim4_retry_500_twice [] [] [{ delta := "ok" }]
    { status := some 500 } { status := some 500 } rfl rfl

/-- C5: a first-invocation error carrying a 4xx status other than 429 is
propagated after exactly one invocation; an error whose extracted status is
429 or at least 500, or that carries no discernible numeric status, is
classified transient, and with at least one retry allowed a transient first
failure leads to at least a second invocation. -/
theorem claim5_transient_classification :
    (∀ (retries : Nat) (beh : Nat → Attempt) (p : List ChatStreamChunk)
        (e : JsError) (s : Int), beh 0 = Attempt.fail p e →
          extractStatus e = some s → 400 ≤ s → s < 500 → s ≠ 429 →
            withRetry retries beh false = (1, p, some e)) ∧
    (∀ (e : JsError) (s : Int), extractStatus e = some s →
        s = 429 ∨ 500 ≤ s → isTransientError e = true) ∧
    (∀ (e : JsError), extractStatus e = none → isTransientError e = true) ∧
    (∀ (retries : Nat) (beh : Nat → Attempt) (p : List ChatStreamChunk)
        (e : JsError), beh 0 = Attempt.fail p e → isTransientError e = true →
          1 ≤ retries → 2 ≤ (withRetry retries beh false).1) := by
  refine ⟨?_, ?_, ?_, ?_⟩
  · intro retries beh p e s hb hs h400 h500 h429
    have ht : isTransientError e = false := by
      unfold isTransientError
      rw [hs]
      simp only [Bool.or_eq_false_iff, beq_eq_false_iff_ne, ne_eq,
        decide_eq_false_iff_not, not_le]
      exact ⟨h429, h500⟩
    rcases retries with _ | b
    · rw [withRetry, retryRun_fail_zero false hb]
    · rw [withRetry, retryRun_fail_succ false b hb, ht]
      simp
  · intro e s hs hor
    unfold isTransientError
    rw [hs]
    rcases hor with h | h
    · simp [h]
    · simp [h]
  · intro e he
    unfold isTransientError
    rw [he]
  · intro retries beh p e hb ht h1
    rcases retries with _ | b
    · omega
    · rw [withRetry, retryRun_fail_succ false b hb, ht]
      have := retryRun_pos beh false 1 b
      simp
      omega

/-- C5 (witness): the theorem applied at concrete errors (status 404 is not
retried; status 429, status 503 and a status-less error are transient; a
transient first failure is retried). -/
theorem claim5_witness :
    withRetry 2
      (fun _ => Attempt.fail [] { status := some 404 }) false =
      (1, [], some { status := some 404 }) ∧
    isTransientError { status := some 429 } = true ∧
    isTransientError { status := some 503 } = true ∧
    isTransientError ({} : JsError) = true ∧
    2 ≤ (withRetry 2 (fun _ => Attempt.fail [] ({} : JsError)) false).1 :=
  ⟨claim5_transient_classification.1 2 _ [] { status := some 404 } 404 rfl
      (by decide) (by decide) (by decide) (by decide),
    claim5_transient_classification.2.1 { status := some 429 } 429 (by decide)
      (Or.inl rfl),
    claim5_transient_classification.2.1 { status := some 503 } 503 (by decide)
      (Or.inr (by decide)),
    claim5_transient_classification.2.2.1 ({} : JsError) rfl,
    claim5_transient_classification.2.2.2 2 _ [] ({} : JsError) rfl rfl
      (by decide)⟩

/-- C6: as stated, the claim is false: when an external signal is supplied,
only it is attached to the network call (`signal || controller.signal`), so
a firing internal timeout does not abort the in-flight call. -/
theorem claim6_counterexample :
    ¬ (callAborted true false true = (false || true)) := by decide

/-- C6 (amended): the network call is aborted by the internal timeout
signal only when no external signal is supplied; when an external signal is
supplied, the call is aborted exactly when that external signal fires, and
the timeout's firing is irrelevant; the default timeout value is 30000 ms. -/
theorem claim6_signal_selection :
    (∀ (ef tf : Bool), callAborted false ef tf = tf) ∧
    (∀ (ef tf : Bool), callAborted true ef tf = ef) ∧
    adapterTimeout none = 30000 := by
  refine ⟨?_, ?_, rfl⟩ <;> decide

/-- C7: as stated, the claim is false for the Anthropic adapter: a truthy
`systemPrompt` is always pushed onto the `system` list, so it changes the
payload even when an explicit system-role message is present. -/
theorem claim7_counterexample :
    toAnthropicPayload
        { model := "m", messages := [{ role := Role.system, content := "M" }],
          systemPrompt := some "S" } ≠
      toAnthropicPayload
        { model := "m", messages := [{ role := Role.system, content := "M" }],
          systemPrompt := none } ∧
    (toAnthropicPayload
        { model := "m", messages := [{ role := Role.system, content := "M" }],
          systemPrompt := some "S" }).system = some "S\nM" := by
  constructor
  · decide
  · decide

/-- C7 (amended): the OpenAI adapter injects a system message from
`systemPrompt` only when no explicit system-role message is present (with a
present system-role message the request messages are passed through
unchanged); the Anthropic adapter instead always prepends a truthy
`systemPrompt` to the newline-joined `system` field, before the system-role
messages' contents, whether or not such messages are present. -/
theorem claim7_system_prompt_injection :
    (∀ (req : ChatRequest),
        (req.messages.any fun m => m.role = Role.system) = true →
          openAIMessages req = req.messages) ∧
    (∀ (req : ChatRequest) (s : String), req.systemPrompt = some s →
        s ≠ "" →
          (toAnthropicPayload req).system =
            some (String.intercalate "\n"
              (s :: (req.messages.filter
                (fun m => m.role = Role.system)).map (fun m => m.content)))) := by
  constructor
  · intro req h
    unfold openAIMessages
    rw [h]
    simp
  · intro req s hsp hs
    have hne : s.isEmpty = false := by
      cases he : s.isEmpty
      · rfl
      · exact absurd ((String.isEmpty_iff s).mp he) hs
    have hf := anthFold_spec req.messages
      (match req.systemPrompt with
       | some t => if t.isEmpty then [] else [t]
       | none => []) []
    show (if (req.messages.foldl anthFoldStep _).1.isEmpty = true then none
          else some (String.intercalate "\n"
            (req.messages.foldl anthFoldStep _).1)) = _
    rw [hf, hsp]
    simp [hne]

/-- C7 (witness): the amended theorem applied at concrete requests. -/
theorem claim7_witness :
    openAIMessages
        { model := "m", messages := [{ role := Role.system, content := "M" }],
          systemPrompt := some "S" } =
      [{ role := Role.system, content := "M" }] ∧
    (toAnthropicPayload
        { model := "m", messages := [{ role := Role.system, content := "M" }],
          systemPrompt := some "S" }).system =
      some (String.intercalate "\n" ("S" :: ["M"])) :=
  ⟨claim7_system_prompt_injection.1
      { model := "m", messages := [{ role := Role.system, content := "M" }],
        systemPrompt := some "S" } (by decide),
    by
      have := claim7_system_prompt_injection.2
        { model := "m", messages := [{ role := Role.system, content := "M" }],
          systemPrompt := some "S" } "S" rfl (by decide)
      simpa using this⟩

/-- C8: as stated, the claim is false: a line with leading whitespace
before `data:` does produce a payload, because the decoder applies
`trimStart` before testing the `data:` prefix. -/
theorem claim8_counterexample :
    sseToIterable [" data: hello\n\n".toList] = ["hello".toList] ∧
      ("data:".toList.isPrefixOf " data: hello".toList) = false := by
  constructor
  · decide
  · decide

/-- C8 (amended): the decoder yields a payload exactly for the lines whose
whitespace-stripped text begins with the 5-character `data:` prefix — in
particular metadata lines (`event:`, `id:`, `retry:`, comments) never
yield — and the payload is the trimmed remainder after that prefix. -/
theorem claim8_data_lines_only (ev : List Char) :
    eventPayloads ev =
      ((splitLines ev).filter
          (fun l => "data:".toList.isPrefixOf (trimStart l))).map
        (fun l => jsTrim ((trimStart l).drop 5)) :=
  eventPayloads_eq_filter ev

/-- C9: every non-terminal chunk yielded by the OpenAI `streamChat` loop has
a non-empty delta (so the only empty-delta chunk a caller can observe is
the terminal one), and a parsed payload whose extracted delta is empty is
dropped without any effect on the output. -/
theorem claim9_empty_deltas_dropped :
    (∀ (ε : Type) (ps : List SsePayload) (err : Option ε)
        (c : ChatStreamChunk), c ∈ (openAIStreamRun ps err).1 →
          c.done = false → c.delta ≠ "") ∧
    (∀ (ε : Type) (j : Json) (ps : List SsePayload) (err : Option ε),
        getDeltaContent j = "" →
          openAIStreamRun (SsePayload.json j :: ps) err =
            openAIStreamRun ps err) :=
  ⟨fun _ ps err c hc hd => openAIStreamRun_nonterminal_delta ps err c hc hd,
    fun _ j ps err h => openAIStreamRun_empty_delta_skip j ps err h⟩

/-- C9 (witness): the theorem applied at a structurally valid event with a
delta (`"Hi"` is non-empty) and at one with a missing delta (which is
dropped). -/
theorem claim9_witness :
    ({ delta := "Hi" } : ChatStreamChunk).delta ≠ "" ∧
    openAIStreamRun
        (SsePayload.json (Json.obj [("choices", Json.arr [Json.obj []])]) ::
          [SsePayload.done]) (none : Option Unit) =
      openAIStreamRun [SsePayload.done] (none : Option Unit) :=
  ⟨claim9_empty_deltas_dropped.1 Unit
      [SsePayload.json (Json.obj [("choices",
        Json.arr [Json.obj [("delta",
          Json.obj [("content", Json.str "Hi")])]])])] none
      { delta := "Hi" } (by decide) rfl,
    claim9_empty_deltas_dropped.2 Unit _ [SsePayload.done] none rfl⟩

/-- C10: the Anthropic vendor payload keeps exactly the user/assistant
messages (in order, as text blocks), every entry of its `messages` array is
user- or assistant-role (tool messages are dropped entirely), and the
`system` field is the newline-join of the truthy `systemPrompt` followed by
all system-role messages' contents, or absent when there are none. -/
theorem claim10_anthropic_payload (req : ChatRequest) :
    (toAnthropicPayload req).messages =
      req.messages.filterMap (fun m =>
        if m.role = Role.user ∨ m.role = Role.assistant then
          some { role := m.role, text := m.content } else none) ∧
    (∀ m ∈ (toAnthropicPayload req).messages,
        m.role = Role.user ∨ m.role = Role.assistant) ∧
    (toAnthropicPayload req).system =
      (if ((match req.systemPrompt with
            | some s => if s.isEmpty then [] else [s]
            | none => []) ++
          (req.messages.filter (fun m => m.role = Role.system)).map
            (fun m => m.content)).isEmpty = true then none
       else some (String.intercalate "\n"
        ((match req.systemPrompt with
          | some s => if s.isEmpty then [] else [s]
          | none => []) ++
          (req.messages.filter (fun m => m.role = Role.system)).map
            (fun m => m.content)))) := by
  have hf := anthFold_spec req.messages
    (match req.systemPrompt with
     | some s => if s.isEmpty then [] else [s]
     | none => []) []
  refine ⟨?_, ?_, ?_⟩
  · show (req.messages.foldl anthFoldStep _).2 = _
    rw [hf]
    simp
  · intro m hm
    have h1 : (toAnthropicPayload req).messages =
        req.messages.filterMap (fun m =>
          if m.role = Role.user ∨ m.role = Role.assistant then
            some { role := m.role, text := m.content } else none) := by
      show (req.messages.foldl anthFoldStep _).2 = _
      rw [hf]
      simp
    rw [h1] at hm
    obtain ⟨m0, _, hm0⟩ := List.mem_filterMap.mp hm
    by_cases hr : m0.role = Role.user ∨ m0.role = Role.assistant
    · rw [if_pos hr] at hm0
      injection hm0 with hm0
      rw [← hm0]
      exact hr
    · rw [if_neg hr] at hm0
      exact absurd hm0 (by simp)
  · show (if (req.messages.foldl anthFoldStep _).1.isEmpty then _
        else some (String.intercalate "\n"
          (req.messages.foldl anthFoldStep _).1)) = _
    rw [hf]

/-- C10 (witness): the theorem applied at a request with all four roles. -/
theorem claim10_witness :
    (toAnthropicPayload
        { model := "m",
          messages := [{ role := Role.system, content := "sys" },
            { role := Role.user, content := "u" },
            { role := Role.tool, content := "t" },
            { role := Role.assistant, content := "a" }],
          systemPrompt := some "sp" }).messages =
      [{ role := Role.user, text := "u" },
        { role := Role.assistant, text := "a" }] ∧
    (Role.user = Role.user ∨ Role.user = Role.assistant) := by
  have h := claim10_anthropic_payload
    { model := "m",
      messages := [{ role := Role.system, content := "sys" },
        { role := Role.user, content := "u" },
        { role := Role.tool, content := "t" },
        { role := Role.assistant, content := "a" }],
      systemPrompt := some "sp" }
  refine ⟨?_, ?_⟩
  · rw [h.1]
    decide
  · refine h.2.1 { role := Role.user, text := "u" } ?_
    rw [h.1]
    decide

end TetherAI
